import Mathlib

/-!
Verification of the canvas particle simulation (`src/try_canvas.js`).

The simulation core is embedded shallowly:

* `config` mirrors the JavaScript `config` object (the numeric fields the
  simulation core reads).
* `Particle` and `Particle.applyPhysics` mirror the `Particle` class and its
  per-tick integrator, over exact rationals.
* `drawConnections` mirrors `ParticleSystem.drawConnections`, returning the
  sequence of emitted edges (source index, partner index, both endpoints and
  the squared distance; the stroked opacity is a function of that squared
  distance, given as `Edge.opacity`).
* `applyMouseToParticle` / `applyMouseInteraction` mirror
  `ParticleSystem.applyMouseInteraction` over the reals, since the force
  field divides by a Euclidean distance (`Math.hypot`).
* `createdParticleCount` mirrors the particle-count logic of
  `ParticleSystem.createParticles`.
-/

namespace Canvas

/-! ## Configuration (`config` object in the source) -/

namespace config

def particleBaseCount : ℕ := 100

def particleCountLargeScreenFactor : ℚ := 4.5

def smallScreenWidthThreshold : ℚ := 600

def mouseInteractionRadius : ℝ := 200

def particlePushFriction : ℚ := 0.55

def connectionMaxDistance : ℚ := 100

def connectionMaxPeers : ℕ := 4

def connectionOpacityFactor : ℝ := 0.5

end config

/-! ## Particle state and the integrator (`Particle.applyPhysics`) -/

/-- The numeric state of one particle: position, velocity, push accumulator,
radius and friction coefficient, as in the `Particle` class. -/
structure Particle where
  x : ℚ
  y : ℚ
  vx : ℚ
  vy : ℚ
  pushX : ℚ
  pushY : ℚ
  radius : ℚ
  friction : ℚ
deriving DecidableEq, Repr

/-- One axis of the boundary-collision block of `applyPhysics`: the source
repeats the same either/or pattern for x against `canvasWidth` and for y
against `canvasHeight`.  Takes the lower bound (`radius`), the upper bound
(`extent - radius`), the freshly integrated position, the velocity and the
decayed push component; returns the corrected triple. -/
def collideAxis (lo hi pos v push : ℚ) : ℚ × ℚ × ℚ :=
  if pos < lo then (lo, v * (-1), push * (-0.5))
  else if pos > hi then (hi, v * (-1), push * (-0.5))
  else (pos, v, push)

/-- The integrator `Particle.applyPhysics(canvasWidth, canvasHeight)`: decay the push
accumulator by `friction`, integrate the position, then run the boundary
collision checks on the x axis and the y axis independently. -/
def Particle.applyPhysics (p : Particle) (canvasWidth canvasHeight : ℚ) : Particle :=
  let pushX := p.pushX * p.friction
  let pushY := p.pushY * p.friction
  let x := p.x + (pushX + p.vx)
  let y := p.y + (pushY + p.vy)
  let xc := collideAxis p.radius (canvasWidth - p.radius) x p.vx pushX
  let yc := collideAxis p.radius (canvasHeight - p.radius) y p.vy pushY
  { x := xc.1, y := yc.1, vx := xc.2.1, vy := yc.2.1,
    pushX := xc.2.2, pushY := yc.2.2, radius := p.radius, friction := p.friction }

/-! ## Connection graph (`ParticleSystem.drawConnections`) -/

/-- Squared distance between two particles, exactly as the inner loop of
`drawConnections` computes it: `dx*dx + dy*dy` with `dx = p1.x - p2.x`. -/
def distSq (p1 p2 : Particle) : ℚ :=
  (p1.x - p2.x) * (p1.x - p2.x) + (p1.y - p2.y) * (p1.y - p2.y)

/-- The squared threshold the inner loop of `drawConnections` compares
against: `connectionMaxDistance * connectionMaxDistance`. -/
def maxDistSq : ℚ := config.connectionMaxDistance * config.connectionMaxDistance

/-- One edge emitted by `drawConnections`: the source index `i`, the partner
index `j`, the two endpoints `a = (p1.x, p1.y)` and `b = (p2.x, p2.y)` of the
stroked segment, and the squared distance `dSq` between them (from which the
stroke opacity is computed, see `Edge.opacity`). -/
structure Edge where
  i : ℕ
  j : ℕ
  a : ℚ × ℚ
  b : ℚ × ℚ
  dSq : ℚ
deriving DecidableEq, Repr

/-- The inner loop of `drawConnections`: `p1` is the particle at index `i`,
`rest` the particles at indices `j, j+1, ...`, and `conns` the current value
of the `connections` counter.  Each iteration first breaks once
`connections >= config.connectionMaxPeers`, then emits an edge when the
squared distance is below `maxDistSq`, incrementing the counter. -/
def innerLoop (p1 : Particle) (i : ℕ) : List Particle → ℕ → ℕ → List Edge
  | [], _, _ => []
  | p2 :: rest, j, conns =>
    if config.connectionMaxPeers ≤ conns then []
    else if distSq p1 p2 < maxDistSq then
      ⟨i, j, (p1.x, p1.y), (p2.x, p2.y), distSq p1 p2⟩ :: innerLoop p1 i rest (j + 1) (conns + 1)
    else innerLoop p1 i rest (j + 1) conns

/-- The outer loop of `drawConnections`: for the particle at index `i`, scan
partners at indices `j > i` with a fresh `connections` counter, then continue
with the next source index. -/
def connAux : List Particle → ℕ → List Edge
  | [], _ => []
  | p1 :: rest, i => innerLoop p1 i rest (i + 1) 0 ++ connAux rest (i + 1)

/-- The edge sequence `ParticleSystem.drawConnections` emits, in emission
order. -/
def drawConnections (particles : List Particle) : List Edge :=
  connAux particles 0

/-- The opacity `drawConnections` strokes an edge with:
`(1 - distance / connectionMaxDistance) * connectionOpacityFactor`, clamped
to `[0, 1]`, where `distance = Math.sqrt(distSq)`. -/
noncomputable def Edge.opacity (e : Edge) : ℝ :=
  max 0 (min ((1 - Real.sqrt (e.dSq : ℝ) / (config.connectionMaxDistance : ℝ)) *
    config.connectionOpacityFactor) 1)

/-- Emission order of `drawConnections`: source index ascending, then partner
index ascending. -/
def Edge.lt (e1 e2 : Edge) : Prop :=
  e1.i < e2.i ∨ (e1.i = e2.i ∧ e1.j < e2.j)

/-! ## Pointer force field (`ParticleSystem.applyMouseInteraction`)

The force field divides by `Math.hypot(dx, dy)`, so this layer is embedded
over the reals. -/

/-- A particle's numeric state over the reals, for the force-field step. -/
structure RParticle where
  x : ℝ
  y : ℝ
  vx : ℝ
  vy : ℝ
  pushX : ℝ
  pushY : ℝ
  radius : ℝ
  friction : ℝ

/-- The pointer state `this.mouse`: position components are `undefined` until the first
pointer event, modelled as `Option`; `radius` is the influence radius. -/
structure MouseState where
  x : Option ℝ
  y : Option ℝ
  radius : ℝ

open Classical in
/-- The body of the `applyMouseInteraction` loop for one particle, given a
present pointer position `(mx, my)` and influence radius `mradius`:
`distance = Math.hypot(dx, dy)`; when `distance < mradius && distance > 0.1`,
add `(dx/distance) * (1 - distance/mradius) * 5` componentwise onto the push
accumulator; otherwise leave the particle unchanged. -/
noncomputable def applyMouseToParticle (mx my mradius : ℝ) (p : RParticle) : RParticle :=
  let dx := p.x - mx
  let dy := p.y - my
  let distance := Real.sqrt (dx * dx + dy * dy)
  if distance < mradius ∧ 0.1 < distance then
    let forceDirectionX := dx / distance
    let forceDirectionY := dy / distance
    let forceMagnitude := 1 - distance / mradius
    { p with pushX := p.pushX + forceDirectionX * forceMagnitude * 5,
             pushY := p.pushY + forceDirectionY * forceMagnitude * 5 }
  else p

/-- The force field `ParticleSystem.applyMouseInteraction`: return the particles unchanged
when either pointer coordinate is `undefined`, else run the per-particle
body over the sequence. -/
noncomputable def applyMouseInteraction (mouse : MouseState) (particles : List RParticle) :
    List RParticle :=
  match mouse.x, mouse.y with
  | some mx, some my => particles.map (applyMouseToParticle mx my mouse.radius)
  | _, _ => particles

/-- The part of the `ParticleSystem` state the force-field step reads and
writes: the pointer state and the particle sequence. -/
structure RSystem where
  mouse : MouseState
  particles : List RParticle

/-- The step `applyMouseInteraction` induces on the system state: it only
replaces the particle sequence. -/
noncomputable def applyMouseInteractionSys (s : RSystem) : RSystem :=
  { s with particles := applyMouseInteraction s.mouse s.particles }

open Classical in
/-- Modelled from the spec (§4.2 Pointer ForceField), for comparison with the
source's `applyMouseToParticle`: with `d` the Euclidean distance from the
pointer `P` to the particle position `Q`, no effect when `d ≥ influenceRadius`
or `d ≤ 0.1`; otherwise accumulate `u * m * K` componentwise with
`u = (Q - P) / d`, `m = 1 - d / influenceRadius` and `K = 5`. -/
noncomputable def forceFieldSpecStep (px py influenceRadius : ℝ) (p : RParticle) : RParticle :=
  let d := Real.sqrt ((p.x - px) * (p.x - px) + (p.y - py) * (p.y - py))
  if influenceRadius ≤ d ∨ d ≤ 0.1 then p
  else
    { p with pushX := p.pushX + ((p.x - px) / d) * (1 - d / influenceRadius) * 5,
             pushY := p.pushY + ((p.y - py) / d) * (1 - d / influenceRadius) * 5 }

/-! ## Particle creation count (`ParticleSystem.createParticles`) -/

/-- The `count` loop bound in `createParticles`:
`canvasWidth > smallScreenWidthThreshold ? particleBaseCount *
particleCountLargeScreenFactor : particleBaseCount`.  A rational, as in the
source, where the product of the base count with the float factor is used
directly as the bound of the push loop. -/
def particleCountBound (canvasWidth : ℚ) : ℚ :=
  if config.smallScreenWidthThreshold < canvasWidth then
    (config.particleBaseCount : ℚ) * config.particleCountLargeScreenFactor
  else (config.particleBaseCount : ℚ)

/-- The number of iterations of `for (let i = 0; i < count; i++)` with an
integer counter `i` and a (possibly fractional) bound `count`: zero when the
bound is non-positive, else the least integer not below it.
`loopIterations_spec` proves this is exactly the loop's iteration count. -/
def loopIterations (count : ℚ) : ℕ := ⌈max count 0⌉.toNat

/-- The number of particles `createParticles` pushes for a given canvas
width. -/
def createdParticleCount (canvasWidth : ℚ) : ℕ :=
  loopIterations (particleCountBound canvasWidth)

/-- A particle at rest at `(x, y)` with radius `1` and the configured
friction, used for concrete test configurations. -/
def particleAt (x y : ℚ) : Particle :=
  ⟨x, y, 0, 0, 0, 0, 1, config.particlePushFriction⟩

/-! ## Lemmas about the integrator -/

theorem collideAxis_fst_mem (lo hi pos v push : ℚ) (h : lo ≤ hi) :
    lo ≤ (collideAxis lo hi pos v push).1 ∧ (collideAxis lo hi pos v push).1 ≤ hi := by
  unfold collideAxis
  split_ifs with h1 h2 <;> constructor <;> linarith

theorem collideAxis_push_cases (lo hi pos v push : ℚ) :
    (collideAxis lo hi pos v push).2.2 = push ∨
      (collideAxis lo hi pos v push).2.2 = push * (-0.5) := by
  unfold collideAxis
  split_ifs <;> simp

/-- C1 — After `applyPhysics(W, H)`, a particle whose radius is strictly less
than half of each canvas extent has `radius ≤ x ≤ W − radius` and
`radius ≤ y ≤ H − radius`, regardless of its pre-step position, velocity and
push accumulator. -/
theorem C1_applyPhysics_position_in_bounds (p : Particle) (W H : ℚ)
    (hW : p.radius < W / 2) (hH : p.radius < H / 2) :
    p.radius ≤ (p.applyPhysics W H).x ∧ (p.applyPhysics W H).x ≤ W - p.radius ∧
    p.radius ≤ (p.applyPhysics W H).y ∧ (p.applyPhysics W H).y ≤ H - p.radius := by
  have hx := collideAxis_fst_mem p.radius (W - p.radius)
    (p.x + (p.pushX * p.friction + p.vx)) p.vx (p.pushX * p.friction) (by linarith)
  have hy := collideAxis_fst_mem p.radius (H - p.radius)
    (p.y + (p.pushY * p.friction + p.vy)) p.vy (p.pushY * p.friction) (by linarith)
  simp only [Particle.applyPhysics]
  exact ⟨hx.1, hx.2, hy.1, hy.2⟩

theorem C1_witness :
    ((1 : ℚ) < 10 / 2 ∧ (1 : ℚ) < 8 / 2) ∧
    ((1 : ℚ) ≤ ((particleAt 2 3).applyPhysics 10 8).x ∧
      ((particleAt 2 3).applyPhysics 10 8).x ≤ 10 - 1 ∧
      (1 : ℚ) ≤ ((particleAt 2 3).applyPhysics 10 8).y ∧
      ((particleAt 2 3).applyPhysics 10 8).y ≤ 8 - 1) :=
  ⟨⟨by norm_num, by norm_num⟩,
    C1_applyPhysics_position_in_bounds (particleAt 2 3) 10 8 (by norm_num [particleAt])
      (by norm_num [particleAt])⟩

/-- C2 — With friction in `(0, 1)`, one `applyPhysics` step never increases
the magnitude of either push-accumulator component, with or without a
boundary collision. -/
theorem C2_push_magnitude_nonincreasing (p : Particle) (W H : ℚ)
    (h0 : 0 < p.friction) (h1 : p.friction < 1) :
    |(p.applyPhysics W H).pushX| ≤ |p.pushX| ∧ |(p.applyPhysics W H).pushY| ≤ |p.pushY| := by
  have key : ∀ lo hi pos v push f : ℚ, 0 < f → f < 1 →
      |(collideAxis lo hi pos v (push * f)).2.2| ≤ |push| := by
    intro lo hi pos v push f hf0 hf1
    rcases collideAxis_push_cases lo hi pos v (push * f) with h | h <;> rw [h]
    · rw [abs_mul]
      calc |push| * |f| ≤ |push| * 1 := by
            apply mul_le_mul_of_nonneg_left _ (abs_nonneg push)
            rw [abs_of_pos hf0]; linarith
        _ = |push| := mul_one _
    · rw [abs_mul, abs_mul]
      have : |(-0.5 : ℚ)| = 0.5 := by norm_num
      rw [this]
      nlinarith [abs_nonneg push, abs_of_pos hf0]
  simp only [Particle.applyPhysics]
  exact ⟨key _ _ _ _ p.pushX p.friction h0 h1, key _ _ _ _ p.pushY p.friction h0 h1⟩

theorem C2_witness :
    ((0 : ℚ) < (particleAt 5 5).friction ∧ (particleAt 5 5).friction < 1) ∧
    (|((particleAt 5 5).applyPhysics 20 20).pushX| ≤ |(particleAt 5 5).pushX| ∧
      |((particleAt 5 5).applyPhysics 20 20).pushY| ≤ |(particleAt 5 5).pushY|) :=
  ⟨⟨by norm_num [particleAt, config.particlePushFriction],
    by norm_num [particleAt, config.particlePushFriction]⟩,
    C2_push_magnitude_nonincreasing (particleAt 5 5) 20 20
      (by norm_num [particleAt, config.particlePushFriction])
      (by norm_num [particleAt, config.particlePushFriction])⟩

/-- C7 — A particle at `x = radius − 1` with `vx = −2`, zero push
accumulator, and a y-coordinate causing no y-axis boundary contact, ends one
`applyPhysics` step at `x = radius` with `vx = +2`. -/
theorem C7_boundary_bounce (p : Particle) (W H : ℚ)
    (hx : p.x = p.radius - 1) (hvx : p.vx = -2)
    (hpx : p.pushX = 0) (hpy : p.pushY = 0)
    (hylo : p.radius ≤ p.y + p.vy) (hyhi : p.y + p.vy ≤ H - p.radius) :
    (p.applyPhysics W H).x = p.radius ∧ (p.applyPhysics W H).vx = 2 := by
  simp only [Particle.applyPhysics, collideAxis, hx, hvx, hpx, hpy]
  norm_num
  split_ifs with h1 h2
  · exact ⟨rfl, rfl⟩
  · linarith
  · linarith

theorem C7_witness :
    ((5 : ℚ) - 1 = 5 - 1 ∧ (-2 : ℚ) = -2 ∧ (0 : ℚ) = 0 ∧
      (5 : ℚ) ≤ 30 + 0 ∧ (30 : ℚ) + 0 ≤ 60 - 5) ∧
    ((Particle.applyPhysics ⟨5 - 1, 30, -2, 0, 0, 0, 5, 0.55⟩ 80 60).x = 5 ∧
      (Particle.applyPhysics ⟨5 - 1, 30, -2, 0, 0, 0, 5, 0.55⟩ 80 60).vx = 2) :=
  ⟨⟨rfl, rfl, rfl, by norm_num, by norm_num⟩,
    C7_boundary_bounce ⟨5 - 1, 30, -2, 0, 0, 0, 5, 0.55⟩ 80 60 rfl rfl rfl rfl
      (by norm_num) (by norm_num)⟩

/-! ## Lemmas about the connection graph -/

theorem innerLoop_length_le (p1 : Particle) (i : ℕ) (rest : List Particle) (j conns : ℕ) :
    (innerLoop p1 i rest j conns).length ≤ config.connectionMaxPeers - conns := by
  induction rest generalizing j conns with
  | nil => simp [innerLoop]
  | cons p2 rest ih =>
    simp only [innerLoop]
    split_ifs with hcap hdist
    · simp
    · simpa using Nat.le_trans (Nat.succ_le_succ (ih (j + 1) (conns + 1))) (by omega)
    · exact ih (j + 1) conns

theorem innerLoop_mem (p1 : Particle) (i : ℕ) (rest : List Particle) (j conns : ℕ) :
    ∀ e ∈ innerLoop p1 i rest j conns, e.i = i ∧ j ≤ e.j := by
  induction rest generalizing j conns with
  | nil => simp [innerLoop]
  | cons p2 rest ih =>
    intro e he
    simp only [innerLoop] at he
    split_ifs at he with hcap hdist
    · simp at he
    · rcases List.mem_cons.mp he with rfl | hmem
      · exact ⟨rfl, le_refl _⟩
      · exact ⟨(ih (j + 1) (conns + 1) e hmem).1,
          le_trans (Nat.le_succ j) (ih (j + 1) (conns + 1) e hmem).2⟩
    · exact ⟨(ih (j + 1) conns e he).1, le_trans (Nat.le_succ j) (ih (j + 1) conns e he).2⟩

theorem innerLoop_pairwise (p1 : Particle) (i : ℕ) (rest : List Particle) (j conns : ℕ) :
    List.Pairwise (fun a b : Edge => a.j < b.j) (innerLoop p1 i rest j conns) := by
  induction rest generalizing j conns with
  | nil => simp [innerLoop]
  | cons p2 rest ih =>
    simp only [innerLoop]
    split_ifs with hcap hdist
    · simp
    · exact List.Pairwise.cons
        (fun e he => Nat.lt_of_lt_of_le (Nat.lt_succ_self j)
          (innerLoop_mem p1 i rest (j + 1) (conns + 1) e he).2)
        (ih (j + 1) (conns + 1))
    · exact ih (j + 1) conns

theorem innerLoop_length_allpass (p1 : Particle) (i : ℕ) (rest : List Particle) (j conns : ℕ)
    (h : ∀ p2 ∈ rest, distSq p1 p2 < maxDistSq) :
    (innerLoop p1 i rest j conns).length =
      min rest.length (config.connectionMaxPeers - conns) := by
  induction rest generalizing j conns with
  | nil => simp [innerLoop]
  | cons p2 rest ih =>
    simp only [innerLoop]
    split_ifs with hcap hdist
    · simp only [List.length_nil]
      omega
    · have := ih (j + 1) (conns + 1) (fun q hq => h q (List.mem_cons_of_mem p2 hq))
      simp only [List.length_cons, this]
      omega
    · exact absurd (h p2 (List.mem_cons_self p2 rest)) hdist

theorem connAux_mem_i (ps : List Particle) (k : ℕ) :
    ∀ e ∈ connAux ps k, k ≤ e.i := by
  induction ps generalizing k with
  | nil => simp [connAux]
  | cons p1 rest ih =>
    intro e he
    rcases List.mem_append.mp he with hmem | hmem
    · exact le_of_eq (innerLoop_mem p1 k rest (k + 1) 0 e hmem).1.symm
    · exact le_trans (Nat.le_succ k) (ih (k + 1) e hmem)

theorem connAux_countP_le (ps : List Particle) (k i : ℕ) :
    (connAux ps k).countP (fun e => e.i == i) ≤ config.connectionMaxPeers := by
  induction ps generalizing k with
  | nil => simp [connAux]
  | cons p1 rest ih =>
    simp only [connAux, List.countP_append]
    by_cases hik : i = k
    · subst hik
      have h1 : (innerLoop p1 i rest (i + 1) 0).countP (fun e => e.i == i) ≤
          config.connectionMaxPeers := by
        calc (innerLoop p1 i rest (i + 1) 0).countP (fun e => e.i == i)
            ≤ (innerLoop p1 i rest (i + 1) 0).length := List.countP_le_length _
          _ ≤ config.connectionMaxPeers - 0 := innerLoop_length_le p1 i rest (i + 1) 0
          _ = config.connectionMaxPeers := Nat.sub_zero _
      have h2 : (connAux rest (i + 1)).countP (fun e => e.i == i) = 0 := by
        rw [List.countP_eq_zero]
        intro e he
        have := connAux_mem_i rest (i + 1) e he
        simp only [beq_iff_eq]
        omega
      omega
    · have h1 : (innerLoop p1 k rest (k + 1) 0).countP (fun e => e.i == i) = 0 := by
        rw [List.countP_eq_zero]
        intro e he
        have := (innerLoop_mem p1 k rest (k + 1) 0 e he).1
        simp only [beq_iff_eq]
        omega
      have h2 := ih (k + 1)
      omega

theorem connAux_length_le (ps : List Particle) (k : ℕ) :
    (connAux ps k).length ≤ ps.length * config.connectionMaxPeers := by
  induction ps generalizing k with
  | nil => simp [connAux]
  | cons p1 rest ih =>
    simp only [connAux, List.length_append, List.length_cons]
    have h1 := innerLoop_length_le p1 k rest (k + 1) 0
    have h2 := ih (k + 1)
    calc (innerLoop p1 k rest (k + 1) 0).length + (connAux rest (k + 1)).length
        ≤ config.connectionMaxPeers + rest.length * config.connectionMaxPeers := by omega
      _ = (rest.length + 1) * config.connectionMaxPeers := by ring

theorem connAux_pairwise (ps : List Particle) (k : ℕ) :
    List.Pairwise Edge.lt (connAux ps k) := by
  induction ps generalizing k with
  | nil => simp [connAux]
  | cons p1 rest ih =>
    rw [connAux, List.pairwise_append]
    refine ⟨?_, ih (k + 1), ?_⟩
    · exact (innerLoop_pairwise p1 k rest (k + 1) 0).imp_of_mem
        (fun ha hb hj => Or.inr ⟨((innerLoop_mem p1 k rest (k + 1) 0 _ ha).1).trans
          ((innerLoop_mem p1 k rest (k + 1) 0 _ hb).1).symm, hj⟩)
    · intro a ha b hb
      left
      have h1 := (innerLoop_mem p1 k rest (k + 1) 0 a ha).1
      have h2 := connAux_mem_i rest (k + 1) b hb
      omega

theorem innerLoop_pos_congr (p1 q1 : Particle) (i : ℕ) (rest qrest : List Particle)
    (j conns : ℕ) (hx : p1.x = q1.x) (hy : p1.y = q1.y)
    (h : rest.map (fun p => (p.x, p.y)) = qrest.map (fun p => (p.x, p.y))) :
    innerLoop p1 i rest j conns = innerLoop q1 i qrest j conns := by
  induction rest generalizing qrest j conns with
  | nil =>
    cases qrest with
    | nil => rfl
    | cons q2 qrest => simp at h
  | cons p2 rest ih =>
    cases qrest with
    | nil => simp at h
    | cons q2 qrest =>
      simp only [List.map_cons, List.cons.injEq, Prod.mk.injEq] at h
      obtain ⟨⟨hx2, hy2⟩, hrest⟩ := h
      have hd : distSq p1 p2 = distSq q1 q2 := by
        unfold distSq
        rw [hx, hy, hx2, hy2]
      simp only [innerLoop, hd, hx, hy, hx2, hy2]
      split_ifs with hcap hdist
      · rfl
      · rw [ih qrest (j + 1) (conns + 1) hrest]
      · exact ih qrest (j + 1) conns hrest

theorem connAux_pos_congr (ps qs : List Particle) (k : ℕ)
    (h : ps.map (fun p => (p.x, p.y)) = qs.map (fun p => (p.x, p.y))) :
    connAux ps k = connAux qs k := by
  induction ps generalizing qs k with
  | nil =>
    cases qs with
    | nil => rfl
    | cons q qs => simp at h
  | cons p1 rest ih =>
    cases qs with
    | nil => simp at h
    | cons q1 qrest =>
      simp only [List.map_cons, List.cons.injEq, Prod.mk.injEq] at h
      obtain ⟨⟨hx, hy⟩, hrest⟩ := h
      simp only [connAux]
      rw [innerLoop_pos_congr p1 q1 k rest qrest (k + 1) 0 hx hy hrest, ih qrest (k + 1) hrest]

/-- C4 — Every source index contributes at most `connectionMaxPeers` outgoing
edges, and with at least `connectionMaxPeers + 1` particles all mutually
closer than `connectionMaxDistance`, index `0` contributes exactly
`connectionMaxPeers` outgoing edges. -/
theorem C4_peer_cap :
    (∀ (ps : List Particle) (i : ℕ),
      (drawConnections ps).countP (fun e => e.i == i) ≤ config.connectionMaxPeers) ∧
    (∀ ps : List Particle, config.connectionMaxPeers + 1 ≤ ps.length →
      (∀ p ∈ ps, ∀ q ∈ ps, distSq p q < maxDistSq) →
      (drawConnections ps).countP (fun e => e.i == 0) = config.connectionMaxPeers) := by
  constructor
  · intro ps i
    exact connAux_countP_le ps 0 i
  · intro ps hlen hclose
    cases ps with
    | nil => simp [config.connectionMaxPeers] at hlen
    | cons p1 rest =>
      simp only [drawConnections, connAux, List.countP_append, Nat.zero_add]
      have h2 : (connAux rest 1).countP (fun e => e.i == 0) = 0 := by
        rw [List.countP_eq_zero]
        intro e he
        have := connAux_mem_i rest 1 e he
        simp only [beq_iff_eq]
        omega
      have h1 : (innerLoop p1 0 rest 1 0).countP (fun e => e.i == 0) =
          (innerLoop p1 0 rest 1 0).length := by
        rw [List.countP_eq_length]
        intro e he
        simp only [beq_iff_eq]
        exact (innerLoop_mem p1 0 rest 1 0 e he).1
      have h3 : (innerLoop p1 0 rest 1 0).length =
          min rest.length (config.connectionMaxPeers - 0) :=
        innerLoop_length_allpass p1 0 rest 1 0 (fun p2 hp2 =>
          hclose p1 (List.mem_cons_self p1 rest) p2 (List.mem_cons_of_mem p1 hp2))
      simp only [List.length_cons] at hlen
      omega

theorem C4_witness :
    (config.connectionMaxPeers + 1 ≤
        ([particleAt 0 0, particleAt 1 0, particleAt 2 0, particleAt 3 0,
          particleAt 4 0] : List Particle).length ∧
      (∀ p ∈ ([particleAt 0 0, particleAt 1 0, particleAt 2 0, particleAt 3 0,
          particleAt 4 0] : List Particle),
        ∀ q ∈ ([particleAt 0 0, particleAt 1 0, particleAt 2 0, particleAt 3 0,
          particleAt 4 0] : List Particle), distSq p q < maxDistSq)) ∧
    (drawConnections [particleAt 0 0, particleAt 1 0, particleAt 2 0, particleAt 3 0,
        particleAt 4 0]).countP (fun e => e.i == 0) = config.connectionMaxPeers :=
  ⟨⟨by norm_num [config.connectionMaxPeers],
    by
      intro p hp q hq
      fin_cases hp <;> fin_cases hq <;>
        norm_num [particleAt, distSq, maxDistSq, config.connectionMaxDistance]⟩,
    C4_peer_cap.2 _ (by norm_num [config.connectionMaxPeers])
      (by
        intro p hp q hq
        fin_cases hp <;> fin_cases hq <;>
          norm_num [particleAt, distSq, maxDistSq, config.connectionMaxDistance])⟩

/-- C5 — One connection-graph build emits at most
`N * connectionMaxPeers` edges, for any particle sequence of length `N` and
any geometric configuration. -/
theorem C5_edge_count_bound (ps : List Particle) :
    (drawConnections ps).length ≤ ps.length * config.connectionMaxPeers :=
  connAux_length_le ps 0

/-- C6 — The connection-graph build is deterministic in the position
sequence; every edge pairs a lower source index with a strictly higher
partner index; edges are emitted in (i ascending, then j ascending) order
(hence no unordered pair repeats); and the empty particle sequence yields the
empty edge sequence. -/
theorem C6_connection_graph_shape :
    (drawConnections [] = []) ∧
    (∀ ps : List Particle, ∀ e ∈ drawConnections ps, e.i < e.j) ∧
    (∀ ps : List Particle, List.Pairwise Edge.lt (drawConnections ps)) ∧
    (∀ ps qs : List Particle,
      ps.map (fun p => (p.x, p.y)) = qs.map (fun p => (p.x, p.y)) →
      drawConnections ps = drawConnections qs) := by
  refine ⟨rfl, ?_, fun ps => connAux_pairwise ps 0, fun ps qs h => connAux_pos_congr ps qs 0 h⟩
  suffices haux : ∀ (ps : List Particle) (k : ℕ), ∀ e ∈ connAux ps k, e.i < e.j by
    intro ps e he
    exact haux ps 0 e he
  intro ps
  induction ps with
  | nil => simp [connAux]
  | cons p1 rest ih =>
    intro k e he
    rcases List.mem_append.mp he with hmem | hmem
    · have := innerLoop_mem p1 k rest (k + 1) 0 e hmem
      omega
    · exact ih (k + 1) e hmem

theorem C6_witness :
    (([particleAt 0 0, particleAt 10 0] : List Particle).map (fun p => (p.x, p.y)) =
      ([⟨0, 0, 7, 3, 2, 1, 4, 0.9⟩, ⟨10, 0, -1, 0, 0, 5, 2, 0.1⟩] : List Particle).map
        (fun p => (p.x, p.y))) ∧
    drawConnections [particleAt 0 0, particleAt 10 0] =
      drawConnections [⟨0, 0, 7, 3, 2, 1, 4, 0.9⟩, ⟨10, 0, -1, 0, 0, 5, 2, 0.1⟩] :=
  ⟨rfl, C6_connection_graph_shape.2.2.2 _ _ rfl⟩

/-- C8 — Three particles at `(0,0)`, `(10,0)`, `(200,0)`, radius 1 each, with
`connectionMaxDistance = 100`: the build emits exactly one edge, between
`(0,0)` and `(10,0)`, and the particle at `(200,0)` appears in no edge. -/
theorem C8_three_particle_edges :
    drawConnections [particleAt 0 0, particleAt 10 0, particleAt 200 0] =
      [⟨0, 1, (0, 0), (10, 0), 100⟩] ∧
    (drawConnections [particleAt 0 0, particleAt 10 0, particleAt 200 0]).countP
      (fun e => e.a == ((200 : ℚ), (0 : ℚ)) || e.b == ((200 : ℚ), (0 : ℚ))) = 0 := by
  have h : drawConnections [particleAt 0 0, particleAt 10 0, particleAt 200 0] =
      [⟨0, 1, (0, 0), (10, 0), 100⟩] := by
    norm_num [drawConnections, connAux, innerLoop, distSq, maxDistSq, particleAt,
      config.connectionMaxDistance, config.connectionMaxPeers]
  refine ⟨h, ?_⟩
  rw [h]
  simp only [List.countP_cons, List.countP_nil]
  norm_num [Prod.ext_iff]

/-! ## Lemmas about the creation count -/

/-- The loop model is right: `loopIterations c` iterations means every
counter value `i` below it satisfies the loop guard `i < count`, and the
first value not below it fails the guard. -/
theorem loopIterations_spec (c : ℚ) :
    (∀ i : ℕ, i < loopIterations c → (i : ℚ) < c) ∧ ¬((loopIterations c : ℚ) < c) := by
  unfold loopIterations
  constructor
  · intro i hi
    have h1 : (i : ℤ) < ⌈max c 0⌉ := by omega
    have h2 : (i : ℚ) < max c 0 := by exact_mod_cast Int.lt_ceil.mp h1
    rcases le_or_lt c 0 with hc | hc
    · rw [max_eq_right hc] at h2
      exact absurd h2 (Nat.cast_nonneg i).not_lt
    · rwa [max_eq_left hc.le] at h2
  · intro hlt
    have hc : (0 : ℚ) < c := lt_of_le_of_lt (Nat.cast_nonneg _) hlt
    have hmax : max c 0 = c := max_eq_left hc.le
    rw [hmax] at hlt
    have h0 : (0 : ℤ) ≤ ⌈c⌉ := Int.ceil_nonneg hc.le
    have heq : (⌈c⌉.toNat : ℤ) = ⌈c⌉ := Int.toNat_of_nonneg h0
    have h2 : ((⌈c⌉.toNat : ℤ) : ℚ) < c := by push_cast; exact hlt
    rw [heq] at h2
    exact absurd (Int.lt_ceil.mpr h2) (lt_irrefl _)

/-- C9 — `createParticles` creates exactly
`⌊particleBaseCount * particleCountLargeScreenFactor⌋ = 450` particles when
the canvas width exceeds `smallScreenWidthThreshold`, and exactly
`particleBaseCount = 100` otherwise. -/
theorem C9_created_particle_count (W : ℚ) :
    (config.smallScreenWidthThreshold < W →
      createdParticleCount W =
        Nat.floor ((config.particleBaseCount : ℚ) * config.particleCountLargeScreenFactor) ∧
      createdParticleCount W = 450) ∧
    (¬config.smallScreenWidthThreshold < W →
      createdParticleCount W = config.particleBaseCount) := by
  constructor
  · intro hW
    have h : createdParticleCount W = 450 := by
      simp only [createdParticleCount, particleCountBound, if_pos hW]
      norm_num [loopIterations, config.particleBaseCount,
        config.particleCountLargeScreenFactor, Int.toNat]
    refine ⟨?_, h⟩
    rw [h]
    norm_num [config.particleBaseCount, config.particleCountLargeScreenFactor]
  · intro hW
    simp only [createdParticleCount, particleCountBound, if_neg hW]
    norm_num [loopIterations, config.particleBaseCount, Int.toNat]

theorem C9_witness :
    (config.smallScreenWidthThreshold < 601 ∧
      createdParticleCount 601 =
        Nat.floor ((config.particleBaseCount : ℚ) * config.particleCountLargeScreenFactor) ∧
      createdParticleCount 601 = 450) ∧
    (¬config.smallScreenWidthThreshold < 600 ∧
      createdParticleCount 600 = config.particleBaseCount) :=
  ⟨⟨by norm_num [config.smallScreenWidthThreshold],
    (C9_created_particle_count 601).1 (by norm_num [config.smallScreenWidthThreshold])⟩,
    ⟨by norm_num [config.smallScreenWidthThreshold],
    (C9_created_particle_count 600).2 (by norm_num [config.smallScreenWidthThreshold])⟩⟩

/-! ## Lemmas about the force field -/

theorem applyMouseToParticle_fields (mx my mradius : ℝ) (p : RParticle) :
    (applyMouseToParticle mx my mradius p).x = p.x ∧
    (applyMouseToParticle mx my mradius p).y = p.y ∧
    (applyMouseToParticle mx my mradius p).vx = p.vx ∧
    (applyMouseToParticle mx my mradius p).vy = p.vy ∧
    (applyMouseToParticle mx my mradius p).radius = p.radius ∧
    (applyMouseToParticle mx my mradius p).friction = p.friction := by
  unfold applyMouseToParticle
  dsimp only
  split_ifs <;> simp

/-- C3 — The per-particle force-field step equals the spec's reference
definition (no effect when the pointer is absent, `d ≥ influenceRadius`, or
`d ≤ 0.1`; otherwise add `((Q−P)/d)·(1−d/influenceRadius)·K` with `K = 5`
onto the push accumulator), and a particle at distance exactly
`influenceRadius / 2` receives a contribution of magnitude `0.5 × K`. -/
theorem C3_force_field_matches_spec :
    (∀ (mx my mradius : ℝ) (p : RParticle),
      applyMouseToParticle mx my mradius p = forceFieldSpecStep mx my mradius p) ∧
    (∀ (mouse : MouseState) (ps : List RParticle), mouse.x = none ∨ mouse.y = none →
      applyMouseInteraction mouse ps = ps) ∧
    ((applyMouseToParticle 0 0 config.mouseInteractionRadius
        ⟨100, 0, 0, 0, 0, 0, 1, 0.55⟩).pushX = 0.5 * 5 ∧
      (applyMouseToParticle 0 0 config.mouseInteractionRadius
        ⟨100, 0, 0, 0, 0, 0, 1, 0.55⟩).pushY = 0) := by
  have hsqrt : Real.sqrt (10000 : ℝ) = 100 := by
    rw [show (10000 : ℝ) = 100 ^ 2 by norm_num]
    exact Real.sqrt_sq (by norm_num)
  refine ⟨?_, ?_, ?_⟩
  · intro mx my mradius p
    unfold applyMouseToParticle forceFieldSpecStep
    dsimp only
    split_ifs with h1 h2 h2
    · rcases h2 with h2 | h2 <;> [exact absurd h1.1 (not_lt.mpr h2); linarith [h1.2]]
    · rfl
    · rfl
    · push_neg at h2
      rcases not_and_or.mp h1 with h1 | h1

      · exact absurd h2.1 (not_lt.mpr (not_lt.mp h1))
      · linarith [h2.2, not_lt.mp h1]
  · intro mouse ps h
    unfold applyMouseInteraction
    rcases mouse with ⟨mousex, mousey, r⟩
    rcases h with h | h <;> simp only at h <;> subst h
    · rfl
    · cases mousex <;> rfl
  · unfold applyMouseToParticle
    simp only [config.mouseInteractionRadius]
    norm_num
    rw [hsqrt]
    norm_num

/-- C10 — One force-field application changes only the push accumulators:
positions, velocities, radii, friction, the pointer state, and the particle
sequence's length and order are all unchanged. -/
theorem C10_force_field_frame_effect (s : RSystem) :
    (applyMouseInteractionSys s).mouse = s.mouse ∧
    (applyMouseInteractionSys s).particles.length = s.particles.length ∧
    List.Forall₂ (fun p q : RParticle =>
      q.x = p.x ∧ q.y = p.y ∧ q.vx = p.vx ∧ q.vy = p.vy ∧
      q.radius = p.radius ∧ q.friction = p.friction)
      s.particles (applyMouseInteractionSys s).particles := by
  refine ⟨rfl, ?_, ?_⟩ <;>
    rcases s with ⟨⟨mousex, mousey, r⟩, ps⟩ <;>
    simp only [applyMouseInteractionSys, applyMouseInteraction] <;>
    cases mousex <;> cases mousey
  · rfl
  · rfl
  · rfl
  · exact List.length_map ps _
  · exact List.forall₂_same.mpr (fun p _ => ⟨rfl, rfl, rfl, rfl, rfl, rfl⟩)
  · exact List.forall₂_same.mpr (fun p _ => ⟨rfl, rfl, rfl, rfl, rfl, rfl⟩)
  · exact List.forall₂_same.mpr (fun p _ => ⟨rfl, rfl, rfl, rfl, rfl, rfl⟩)
  · exact List.forall₂_map_right_iff.mpr
      (List.forall₂_same.mpr (fun p _ => applyMouseToParticle_fields _ _ _ p))

theorem C3_witness :
    ((⟨none, none, 200⟩ : MouseState).x = none ∨
      (⟨none, none, 200⟩ : MouseState).y = none) ∧
    applyMouseInteraction ⟨none, none, 200⟩ [⟨1, 2, 3, 4, 5, 6, 7, 0.55⟩] =
      [⟨1, 2, 3, 4, 5, 6, 7, 0.55⟩] :=
  ⟨Or.inl rfl,
    C3_force_field_matches_spec.2.1 ⟨none, none, 200⟩ [⟨1, 2, 3, 4, 5, 6, 7, 0.55⟩]
      (Or.inl rfl)⟩

end Canvas
